import Mathlib

/-!
Shallow embedding of the `opus` document-authoring library (Python) in Lean 4.

The embedding models the bookkeeping layer of the library:

* `base_document.py`: page-number table (`set_page` / `increment_page`),
  the index collector (`add_indexed` / `output_indexed`), the footnote
  collector (`BaseParagraph.footnote` / `output_footnotes_list`), and the
  section counter stack (`BaseSection.__init__` / `__enter__` / `__exit__`
  / `number`).
* `references.py`: the reference registry (`References.add`, `__iter__`,
  `__getitem__`) and the guard of `BaseDocument.output_references`.
* `pdf_document.py` / `epub_document.py`: the deferred-paragraph ("flush")
  discipline of the PDF and EPUB backends.
* `docx_document.py`: the eager paragraph construction of the DOCX backend
  and its whitespace-collapsing `Paragraph.add`.

Python strings are modelled by Lean `String`; Python `dict`s that must keep
insertion order are modelled by association lists; Python `set`s whose only
observation point is a sorted iteration are modelled by duplicate-free lists.
Python exceptions are modelled with `Except` or an explicit error component.
-/

namespace Opus

/-! ### Python string primitives

Python compares strings lexicographically by code point, and `sorted` uses
exactly that order.  The built-in `String` order of this toolchain does not
reduce in the kernel, so the comparison is defined here directly on the
character data. -/

/-- Lexicographic code-point comparison of character lists, the order Python
uses for `str` comparison and `sorted`. -/
def charListLe : List Char → List Char → Bool
  | [], _ => true
  | _ :: _, [] => false
  | a :: as, b :: bs =>
    if a < b then true
    else if b < a then false
    else charListLe as bs

/-- Propositional form of `charListLe` on `String`. -/
def strLe (a b : String) : Prop := charListLe a.data b.data = true

instance : DecidableRel strLe := fun a b => by
  unfold strLe; infer_instance

/-- Lowercase an ASCII uppercase character; the fragment of Python
`str.casefold` that the claims exercise (all keys in the claims are ASCII). -/
def pyLowerChar (c : Char) : Char :=
  if 65 ≤ c.toNat ∧ c.toNat ≤ 90 then Char.ofNat (c.toNat + 32) else c

/-- Model of Python `str.casefold()` on the ASCII fragment: lowercase every
character. -/
def casefold (s : String) : String := String.mk (s.data.map pyLowerChar)

/-- Whitespace characters of Python `str.split()` (ASCII fragment). -/
def isPySpace (c : Char) : Bool :=
  c = ' ' || c = '\t' || c = '\n' || c = '\r' || c = '\x0b' || c = '\x0c'

/-- Worker for `pysplit`: `cur` holds the current word, reversed. -/
def pysplitGo : List Char → List Char → List String
  | cur, [] => if cur.isEmpty then [] else [String.mk cur.reverse]
  | cur, c :: rest =>
    if isPySpace c then
      if cur.isEmpty then pysplitGo [] rest
      else String.mk cur.reverse :: pysplitGo [] rest
    else pysplitGo (c :: cur) rest

/-- Model of Python `str.split()` with no argument: split on runs of
whitespace, dropping empty pieces. -/
def pysplit (s : String) : List String := pysplitGo [] s.data

/-- Replace every newline character by a single blank, the pre-substitution
the spec compares `add` against. -/
def replaceNewlines (s : String) : String :=
  String.mk (s.data.map fun c => if c = '\n' then ' ' else c)

/-- Sort a list of strings in Python `sorted` order (code-point
lexicographic). -/
def sortStrings (l : List String) : List String := List.insertionSort strLe l

/-! ### Page-number table — `BaseDocument.set_page` / `increment_page`

`base_document.py` lines 43 and 71-82.  `self.page` is a `dict` created as
`dict(pdf=1, docx=1, epub=1)`; it is modelled as an association list in
insertion order. -/

/-- Page mapping: backend format name to current page number. -/
abbrev PageMap := List (String × Nat)

/-- Value of `self.page` right after `BaseDocument.__init__`:
`dict(pdf=1, docx=1, epub=1)`. -/
def initPage : PageMap := [("pdf", 1), ("docx", 1), ("epub", 1)]

/-- Dictionary lookup `self.page[format]`, as an `Option`. -/
def lookupPage (page : PageMap) (format : String) : Option Nat :=
  page.lookup format

/-- Dictionary assignment `self.page[format] = n` for a key already present;
keys never present are left untouched (a Python dict would add them, but the
source only assigns after a membership check or inside a `try`). -/
def updatePage : PageMap → String → Nat → PageMap
  | [], _, _ => []
  | (k, v) :: rest, format, n =>
    if k = format then (k, n) :: rest else (k, v) :: updatePage rest format n

/-- Model of `BaseDocument.set_page(**pages)`: iterate over the keyword
arguments in order; raise `ValueError` on the first name missing from
`self.page` (the second component carries the offending name), otherwise
assign when the number is not `None`.  Entries processed before a failing
entry are already assigned when the error is raised. -/
def set_page : List (String × Option Nat) → PageMap → PageMap × Option String
  | [], page => (page, none)
  | (format, number) :: rest, page =>
    if (lookupPage page format).isSome then
      set_page rest
        (match number with
         | some n => updatePage page format n
         | none => page)
    else (page, some format)

/-- Model of `BaseDocument.increment_page(format)`: `try: self.page[format]
+= 1 except KeyError: pass` — an unknown format is silently ignored. -/
def increment_page (page : PageMap) (format : String) : PageMap :=
  match lookupPage page format with
  | some n => updatePage page format (n + 1)
  | none => page

/-! ### Index collector — `BaseDocument.add_indexed` / `output_indexed`

`base_document.py` lines 98-99 and 167-181.  `self.indexed` is a dict from
canonical term to a set of locations; modelled as an association list in
insertion order whose location lists are duplicate-free. -/

/-- Index mapping: canonical term to the recorded locations (a Python `set`,
modelled as a duplicate-free list in insertion order). -/
abbrev Indexed := List (String × List Nat)

/-- Python `set.add` on the location set. -/
def insertLoc (locs : List Nat) (loc : Nat) : List Nat :=
  if loc ∈ locs then locs else locs ++ [loc]

/-- Model of `self.indexed.setdefault(key, set()).add(loc)`. -/
def setdefaultAdd : Indexed → String → Nat → Indexed
  | [], canonical, loc => [(canonical, [loc])]
  | (k, ls) :: rest, canonical, loc =>
    if k = canonical then (k, insertLoc ls loc) :: rest
    else (k, ls) :: setdefaultAdd rest canonical loc

/-- Association-list lookup into the index mapping. -/
def lookupInd (ind : Indexed) (canonical : String) : Option (List Nat) :=
  ind.lookup canonical

/-- Error text of the unbound-name failure in `BaseDocument.add_indexed`. -/
def nameErrorText : String := "NameError: name text is not defined"

/-- Model of `BaseDocument.add_indexed(canonical)`: the body is
`self.indexed.setdefault(canonical or text, set()).add(self.location)`.
`canonical or text` short-circuits, so a truthy `canonical` records the
location under it; a falsy `canonical` (Python `None` or the empty string)
evaluates the name `text`, which is unbound in that scope, raising
`NameError`. -/
def add_indexed (ind : Indexed) (canonical : Option String) (loc : Nat) :
    Except String Indexed :=
  match canonical with
  | some c => if c = "" then .error nameErrorText else .ok (setdefaultAdd ind c loc)
  | none => .error nameErrorText

/-- Comparison of index entries used by `output_indexed`:
`sorted(self.indexed.items(), key=lambda i: i[0].casefold())`. -/
def entryLe (a b : String × List Nat) : Prop := strLe (casefold a.1) (casefold b.1)

instance : DecidableRel entryLe := fun a b => by
  unfold entryLe; infer_instance

/-- Model of the entry list rendered by `BaseDocument.output_indexed`:
entries sorted case-insensitively by canonical term, each entry followed by
`sorted(locations)`. -/
def outputIndexedEntries (ind : Indexed) : List (String × List Nat) :=
  (List.insertionSort entryLe ind).map fun e => (e.1, List.insertionSort (· ≤ ·) e.2)

/-- Record the whole sequence of `add_indexed` calls of a document build
(all with truthy canonical terms). -/
def buildIndexed (adds : List (String × Nat)) : Indexed :=
  adds.foldl (fun ind a => setdefaultAdd ind a.1 a.2) []

/-! ### Reference registry — `references.py`

`References.items` maps casefolded keys (casefolded at load time, line 47)
to records; `References.used` is a `set` of the keys exactly as passed to
`References.add` (line 78 adds `reference`, not `reference.casefold()`). -/

/-- The fields of a loaded reference record that the short form renders. -/
structure RefItem where
  reference : String
  title : String
deriving DecidableEq, Repr

/-- The reference registry: loaded items keyed by casefolded citation key,
and the mutable used set (modelled as a duplicate-free list). -/
structure References where
  items : List (String × RefItem)
  used : List String
deriving DecidableEq, Repr

/-- Python `set.add` on the used set. -/
def insertUsed (k : String) (used : List String) : List String :=
  if k ∈ used then used else used ++ [k]

/-- Model of `References.__getitem__`: `self.items[reference.casefold()]`,
as an `Option` (`none` is the `KeyError` path). -/
def References.getItem (r : References) (reference : String) : Option RefItem :=
  r.items.lookup (casefold reference)

/-- Chunks `DefaultReferenceFormatter.add_short` appends to the paragraph:
the italicized key and the quoted title. -/
def shortForm (item : RefItem) : List String :=
  ["<i>", item.reference, "</i>", ", \"" ++ item.title ++ "\""]

/-- Model of `References.add(paragraph, reference)`: on a `KeyError` from
the case-insensitive lookup the placeholder `[ref? key]` is added to the
paragraph and the used set is untouched; on a hit the key is added to the
used set exactly as cited and the short form is rendered.  The paragraph is
modelled as the list of appended chunks. -/
def References.add (r : References) (para : List String) (reference : String) :
    References × List String :=
  match r.getItem reference with
  | none => (r, para ++ ["[ref? " ++ reference ++ "]"])
  | some item => ({ r with used := insertUsed reference r.used }, para ++ shortForm item)

/-- Model of `References.__iter__`:
`(self[reference] for reference in sorted(self.used))`.  Keys in `used`
always resolve (only `add` hits insert them), so the lookup is a
`filterMap`. -/
def References.iter (r : References) : List RefItem :=
  (sortStrings r.used).filterMap r.getItem

/-- Guard and rendering of `BaseDocument.output_references`: when the used
set is empty the method returns before opening a section (`none`); otherwise
it opens one un-numbered section and renders the registry iteration. -/
def References.outputReferences (r : References) : Option (List RefItem) :=
  if r.used.isEmpty then none else some r.iter

/-- Fold a whole document build's citation calls over the registry (the
paragraph side effects are independent of the registry state). -/
def citeAll (r : References) (keys : List String) : References :=
  keys.foldl (fun r k => (r.add [] k).1) r

/-- The distinct citation keys in first-use order, as the used set collects
them. -/
def dedupKeys (keys : List String) : List String :=
  keys.foldl (fun acc k => insertUsed k acc) []

/-! ### Footnote collector — `BaseParagraph.footnote` / `output_footnotes_list`

`base_document.py` lines 309-318 and 124-150.  A footnote's number is
`len(self.document.footnotes) + 1` at creation time; `output_footnotes_list`
ends with `self.footnotes = []`.  Only the numbers matter to the claims, so
the pending list is modelled by the list of assigned numbers. -/

/-- The footnote-relevant events of a document build: creating a footnote
(`BaseParagraph.footnote`) and flushing the collected footnotes
(`BaseDocument.output_footnotes_list`, also reached from the per-section
`Section.output_footnotes`).  Paragraphs and sections in between do not
touch `self.footnotes`. -/
inductive FnOp
  | create
  | flushNotes
deriving DecidableEq, Repr

/-- Step of the pending-footnote list: `footnote` appends a `Footnote`
carrying number `len(footnotes) + 1`; `output_footnotes_list` clears the
list. -/
def fnStep : List Nat → FnOp → List Nat
  | fns, .create => fns ++ [fns.length + 1]
  | _, .flushNotes => []

/-- State of `self.footnotes` (as assigned numbers) after a build trace. -/
def fnRun (ops : List FnOp) : List Nat := ops.foldl fnStep []

/-- Step of the pending-footnote list paired with the log of numbers handed
out so far by `BaseParagraph.footnote`. -/
def fnPairStep (st : List Nat × List Nat) : FnOp → List Nat × List Nat
  | .create => (fnStep st.1 .create, st.2 ++ [st.1.length + 1])
  | .flushNotes => ([], st.2)

/-- The sequence of numbers handed out by `BaseParagraph.footnote` over a
trace, in creation order. -/
def assignedNumbers (ops : List FnOp) : List Nat :=
  (ops.foldl fnPairStep ([], [])).2

/-- Number of footnotes created since the last flush, counted from a given
starting count. -/
def countSinceFlushFrom (k : Nat) (ops : List FnOp) : Nat :=
  ops.foldl
    (fun n op =>
      match op with
      | .create => n + 1
      | .flushNotes => 0)
    k

/-- Number of footnotes created since the last flush of a trace. -/
def countSinceFlush (ops : List FnOp) : Nat := countSinceFlushFrom 0 ops

/-! ### Section counter stack — `BaseSection`

`base_document.py` lines 41, 189-206 and 238-242.  `sections_counts` starts
as `[0]`; `BaseSection.__init__` does `sections_counts[-1] += 1`,
`__enter__` appends `0`, `__exit__` pops, and `number()` is
`".".join(str(n) for n in sections_counts[:-1]) + "."`. -/

/-- A section event: `enter` is constructing and entering a section
(`__init__` immediately followed by `__enter__`, the `with doc.section(...)`
pattern); `leave` is `__exit__`. -/
inductive SecOp
  | enter
  | leave
deriving DecidableEq, Repr

/-- Increment the last element of a list (`sections_counts[-1] += 1`). -/
def incLast : List Nat → List Nat
  | [] => []
  | [n] => [n + 1]
  | n :: rest => n :: incLast rest

/-- Step of the `sections_counts` stack. -/
def secStep : List Nat → SecOp → List Nat
  | counts, .enter => incLast counts ++ [0]
  | counts, .leave => counts.dropLast

/-- `sections_counts` after a trace, starting from the `[0]` of
`BaseDocument.__init__`. -/
def secRun (ops : List SecOp) : List Nat := ops.foldl secStep [0]

/-- Model of `BaseSection.number()` with the default delimiter, evaluated on
the current counter stack. -/
def sectionNumber (counts : List Nat) : String :=
  String.intercalate "." (counts.dropLast.map (fun n => toString n)) ++ "."

/-- Traces that never exit more sections than are open (a Python build that
popped the root `0` would corrupt the stack; the library never does). -/
def balancedFrom : Nat → List SecOp → Bool
  | _, [] => true
  | d, .enter :: ops => balancedFrom (d + 1) ops
  | 0, .leave :: _ => false
  | d + 1, .leave :: ops => balancedFrom d ops

/-! #### Specification model of section numbering

Independent reading of "path of 1-based sibling ordinals": the build is
replayed as the construction of the actual section tree, with one frame of
already-completed sibling subtrees per open section.  The ordinal of an open
section is one more than the number of its elder sibling subtrees. -/

/-- A section tree: each node holds its completed child sections. -/
inductive STree
  | node : List STree → STree

/-- Frame stack, innermost open section first.  The top frame holds the
completed children of the current open node; the bottom frame holds the
completed top-level sections of the document root. -/
abbrev Walk := List (List STree)

/-- Replaying a section event on the frame stack: entering opens a fresh
frame; leaving closes the top frame into a node and appends that node to its
parent frame (so the parent gains one completed child subtree). -/
def walkStep : Walk → SecOp → Walk
  | stack, .enter => [] :: stack
  | f :: parent :: rest, .leave => (parent ++ [.node f]) :: rest
  | stack, .leave => stack

/-- The frame stack after a trace, starting from the lone root frame. -/
def walkRun (ops : List SecOp) : Walk := ops.foldl walkStep [[]]

/-- The 1-based sibling-ordinal path from the root down to the current open
section: each open section's ordinal is the number of its elder sibling
subtrees in its parent frame, plus one. -/
def walkPos (stack : Walk) : List Nat :=
  ((stack.drop 1).map fun f => f.length + 1).reverse

/-- Length of the head frame (children completed so far of the current open
node). -/
def headLen (stack : Walk) : Nat := (stack.headD []).length

/-! ### DOCX backend — `docx_document.py`

`Paragraph.__init__` (lines 270-280) immediately calls
`document.docx.add_paragraph(...)`: the paragraph element enters the docx
output tree at creation time, and every `add` (lines 282-304) immediately
appends a run to it.  The docx `Document` has no pending slot; its `flush`
is the inherited `BaseDocument.flush`, which is `pass`. -/

/-- One run's text as computed by docx `Paragraph.add`: split the text on
whitespace, join the pieces with single blanks, and prepend one blank
exactly when `raw` is false and the line is started. -/
def joinWithBlanks : List String → List String
  | [] => []
  | [l] => [l]
  | l :: rest => l :: " " :: joinWithBlanks rest

/-- The string handed to `self.paragraph.add_run` by docx `Paragraph.add`. -/
def docxAddRun (line_started : Bool) (text : String) (raw : Bool) : String :=
  let lines := pysplit text
  String.join ((if raw || !line_started then [] else [" "]) ++ joinWithBlanks lines)

/-- A docx paragraph: its runs in the output tree and the `line_started`
flag. -/
structure DocxPar where
  runs : List String
  line_started : Bool
deriving DecidableEq, Repr

/-- Model of docx `Paragraph.add`: append the run and set `line_started`. -/
def DocxPar.add (p : DocxPar) (text : String) (raw : Bool) : DocxPar :=
  { runs := p.runs ++ [docxAddRun p.line_started text raw], line_started := true }

/-- The docx document output tree, reduced to its body paragraphs (each a
list of run texts). -/
structure DocxDoc where
  body : List DocxPar
  paragraphs_count : Nat
deriving DecidableEq, Repr

/-- The empty docx body (title-page material elided). -/
def docxInit : DocxDoc := { body := [], paragraphs_count := 0 }

/-- Model of docx `Document.paragraph` with `paragraph_numbers` off:
`Paragraph(self)` runs `document.docx.add_paragraph(...)`, adding an empty
paragraph element to the output tree at once, then the optional text is
added — also directly into the tree.  No flush is involved. -/
def DocxDoc.paragraph (d : DocxDoc) (text : Option String) : DocxDoc :=
  let d1 : DocxDoc :=
    { body := d.body ++ [{ runs := [], line_started := false }],
      paragraphs_count := d.paragraphs_count + 1 }
  match text with
  | none => d1
  | some t =>
    { d1 with
      body := d1.body.dropLast ++
        [DocxPar.add { runs := [], line_started := false } t false] }

/-- Model of the docx document's `flush`: the inherited
`BaseDocument.flush`, whose body is `pass`. -/
def DocxDoc.flush (d : DocxDoc) : DocxDoc := d

/-! ### PDF backend — `pdf_document.py`

The PDF `Document` keeps a single pending slot `self._paragraph`
(line 60); `flush` (lines 255-259) materializes it via `Paragraph.output`
(lines 436-449) and clears the slot.  `Paragraph.add` (lines 350-361) only
appends to the paragraph's buffer. -/

/-- Model of PDF `Paragraph.add` on the buffer: append a blank unless `raw`,
then append the text verbatim (the source collapses no whitespace:
"No cleanup needed; reportlab does that"). -/
def pdfAdd (buffer : List String) (text : String) (raw : Bool) : List String :=
  (if raw then buffer else buffer ++ [" "]) ++ [text]

/-- The PDF document state: produced flowables as (style name, text) pairs,
the single pending-paragraph slot (style name and buffer), and the numbering
state that `Paragraph.output` consults. -/
structure PdfDoc where
  flowables : List (String × String)
  pending : Option (String × List String)
  paragraph_numbers : Bool
  paragraphs_count : Nat
deriving DecidableEq, Repr

/-- Model of PDF `Paragraph.output`: an empty buffer produces nothing;
otherwise the optional paragraph number is inserted at the front and the
joined buffer is appended to the flowables under the paragraph's style. -/
def PdfDoc.output (d : PdfDoc) (style : String) (buffer : List String) :
    List (String × String) :=
  if buffer.isEmpty then d.flowables
  else
    d.flowables ++
      [(style,
        String.join
          (if d.paragraph_numbers then
            ("(" ++ toString d.paragraphs_count ++ ") ") :: buffer
          else buffer))]

/-- Model of PDF `Document.flush`: materialize the pending paragraph, if
any, and clear the slot. -/
def PdfDoc.flush (d : PdfDoc) : PdfDoc :=
  match d.pending with
  | none => d
  | some (style, buf) => { d with flowables := d.output style buf, pending := none }

/-- Model of PDF `Paragraph.add` reaching the pending paragraph through the
document (the buffer lives in the pending slot; flowables are untouched). -/
def PdfDoc.addPending (d : PdfDoc) (text : String) (raw : Bool) : PdfDoc :=
  match d.pending with
  | none => d
  | some (style, buf) => { d with pending := some (style, pdfAdd buf text raw) }

/-- Model of PDF `Document.paragraph` (thematic break elided): flush, open a
fresh pending paragraph of style `Normal` (creation increments
`paragraphs_count` via `BaseParagraph.__init__`), then add the optional
text. -/
def PdfDoc.newParagraph (d : PdfDoc) (text : Option String) : PdfDoc :=
  let d1 := d.flush
  let d2 : PdfDoc :=
    { d1 with
      paragraphs_count := d1.paragraphs_count + 1,
      pending := some ("Normal", []) }
  match text with
  | none => d2
  | some t => d2.addPending t false

/-- Model of PDF `Document.quote`: as `paragraph` but with the `Quote`
style. -/
def PdfDoc.newQuote (d : PdfDoc) (text : Option String) : PdfDoc :=
  let d1 := d.flush
  let d2 : PdfDoc :=
    { d1 with
      paragraphs_count := d1.paragraphs_count + 1,
      pending := some ("Quote", []) }
  match text with
  | none => d2
  | some t => d2.addPending t false

/-- The content-building operations of the PDF document that the flush
discipline speaks about. -/
inductive PdfOp
  | paragraph (text : Option String)
  | quote (text : Option String)
  | addText (text : String) (raw : Bool)
  | thematicBreak
  | pagebreak
  | sectionEnter (title : String)
  | orderedList
  | unorderedList
  | write
  | flushOp
deriving DecidableEq, Repr

/-- Step function of the PDF document, one case per source method:
`paragraph`, `quote`, `Paragraph.add`, `thematic_break`, `pagebreak`,
`section` followed by `Section.__enter__`s heading append, `ordered_list`,
`unordered_list`, `write` and `flush` — every construct-starting method
calls `self.flush()` first, exactly as the source does. -/
def pdfStep (d : PdfDoc) : PdfOp → PdfDoc
  | .paragraph t => d.newParagraph t
  | .quote t => d.newQuote t
  | .addText t raw => d.addPending t raw
  | .thematicBreak =>
    let d1 := d.flush
    { d1 with flowables := d1.flowables ++ [("HR", "")] }
  | .pagebreak =>
    let d1 := d.flush
    { d1 with flowables := d1.flowables ++ [("NotAtTopPageBreak", "")] }
  | .sectionEnter title =>
    let d1 := d.flush
    { d1 with flowables := d1.flowables ++ [("Heading", title)] }
  | .orderedList => d.flush
  | .unorderedList => d.flush
  | .write => d.flush
  | .flushOp => d.flush

/-- Operations that start a new top-level construct (everything except a
content add on the open paragraph). -/
def pdfFlushPoint : PdfOp → Bool
  | .addText _ _ => false
  | _ => true

/-- Number of pending paragraphs held in a slot. -/
def pendingCount {α : Type} : Option α → Nat
  | none => 0
  | some _ => 1

/-! ### EPUB backend — `epub_document.py`

Same flush discipline as PDF (`self._paragraph`, lines 34 and 120-124); the
materialization target is `document.buffer`, a list of HTML fragments, and
`Paragraph.output` (lines 288-298) appends the open tag (with the
`id=f"..."` artifact the f-string source literally produces), the optional
paragraph number, the joined contents and the closing tag. -/

/-- The EPUB document state: the chapter HTML buffer, the single pending
slot (tag name and contents), and the numbering state. -/
structure EpubDoc where
  buffer : List String
  pending : Option (String × List String)
  paragraph_numbers : Bool
  paragraphs_count : Nat
deriving DecidableEq, Repr

/-- Model of EPUB `Paragraph.output`: empty contents produce nothing;
otherwise open tag, optional number, joined contents, closing tag. -/
def EpubDoc.output (d : EpubDoc) (tag : String) (contents : List String) :
    List String :=
  if contents.isEmpty then d.buffer
  else
    d.buffer ++
      ["<" ++ tag ++ " id=f\"" ++ toString d.paragraphs_count ++ "\">"] ++
      (if d.paragraph_numbers then ["(" ++ toString d.paragraphs_count ++ ")"] else []) ++
      [String.join contents] ++
      ["</" ++ tag ++ ">"]

/-- Model of EPUB `Document.flush`. -/
def EpubDoc.flush (d : EpubDoc) : EpubDoc :=
  match d.pending with
  | none => d
  | some (tag, cs) => { d with buffer := d.output tag cs, pending := none }

/-- Model of EPUB `Paragraph.add` on the pending paragraph: append a blank
unless `raw`, then the text verbatim. -/
def EpubDoc.addPending (d : EpubDoc) (text : String) (raw : Bool) : EpubDoc :=
  match d.pending with
  | none => d
  | some (tag, cs) =>
    { d with pending := some (tag, (if raw then cs else cs ++ [" "]) ++ [text]) }

/-- Model of EPUB `Document.paragraph`. -/
def EpubDoc.newParagraph (d : EpubDoc) (text : Option String) : EpubDoc :=
  let d1 := d.flush
  let d2 : EpubDoc :=
    { d1 with
      paragraphs_count := d1.paragraphs_count + 1,
      pending := some ("p", []) }
  match text with
  | none => d2
  | some t => d2.addPending t false

/-- Model of EPUB `Document.quote` (`blockquote` tag). -/
def EpubDoc.newQuote (d : EpubDoc) (text : Option String) : EpubDoc :=
  let d1 := d.flush
  let d2 : EpubDoc :=
    { d1 with
      paragraphs_count := d1.paragraphs_count + 1,
      pending := some ("blockquote", []) }
  match text with
  | none => d2
  | some t => d2.addPending t false

/-- The content-building operations of the EPUB document. -/
inductive EpubOp
  | paragraph (text : Option String)
  | quote (text : Option String)
  | addText (text : String) (raw : Bool)
  | thematicBreak
  | pagebreak
  | sectionEnter (title : String)
  | orderedList
  | unorderedList
  | write
  | flushOp
deriving DecidableEq, Repr

/-- Step function of the EPUB document; every construct-starting method
flushes first, as in the source (`Section.__enter__` flushes and appends the
heading; `write` flushes before serializing). -/
def epubStep (d : EpubDoc) : EpubOp → EpubDoc
  | .paragraph t => d.newParagraph t
  | .quote t => d.newQuote t
  | .addText t raw => d.addPending t raw
  | .thematicBreak =>
    let d1 := d.flush
    { d1 with buffer := d1.buffer ++ ["<hr style=\"margin-top: 40px;\"/>"] }
  | .pagebreak =>
    let d1 := d.flush
    { d1 with buffer := d1.buffer ++ ["<br style=\"page-break-after: always;\"/>"] }
  | .sectionEnter title =>
    let d1 := d.flush
    { d1 with buffer := d1.buffer ++ ["<h1>" ++ title ++ "</h1>"] }
  | .orderedList =>
    let d1 := d.flush
    { d1 with buffer := d1.buffer ++ ["<ol>"] }
  | .unorderedList =>
    let d1 := d.flush
    { d1 with buffer := d1.buffer ++ ["<ul>"] }
  | .write => d.flush
  | .flushOp => d.flush

/-- Operations that start a new top-level construct in the EPUB model. -/
def epubFlushPoint : EpubOp → Bool
  | .addText _ _ => false
  | _ => true

/-! ## Order lemmas for the Python string comparison -/

theorem charListLe_total (x : List Char) :
    ∀ y, charListLe x y = true ∨ charListLe y x = true := by
  induction x with
  | nil => intro y; left; rfl
  | cons a as ih =>
    intro y
    cases y with
    | nil => right; rfl
    | cons b bs =>
      rcases lt_trichotomy a b with hab | hab | hab
      · left; simp [charListLe, hab]
      · subst hab
        rcases ih bs with h | h
        · left; simp [charListLe, lt_irrefl, h]
        · right; simp [charListLe, lt_irrefl, h]
      · right; simp [charListLe, hab]

theorem charListLe_trans (x : List Char) :
    ∀ y z, charListLe x y = true → charListLe y z = true → charListLe x z = true := by
  induction x with
  | nil => intro y z _ _; rfl
  | cons a as ih =>
    intro y z hxy hyz
    cases y with
    | nil => simp [charListLe] at hxy
    | cons b bs =>
      cases z with
      | nil => simp [charListLe] at hyz
      | cons c cs =>
        simp only [charListLe] at hxy hyz ⊢
        rcases lt_trichotomy a b with hab | hab | hab
        · rcases lt_trichotomy b c with hbc | hbc | hbc
          · simp [lt_trans hab hbc]
          · subst hbc; simp [hab]
          · simp [asymm hbc, hbc] at hyz
        · subst hab
          rcases lt_trichotomy a c with hac | hac | hac
          · simp [hac]
          · subst hac
            simp only [lt_irrefl, if_false] at hxy hyz ⊢
            exact ih bs cs hxy hyz
          · simp [asymm hac, hac] at hyz
        · simp [asymm hab, hab] at hxy

instance : IsTotal String strLe :=
  ⟨fun a b => charListLe_total a.data b.data⟩

instance : IsTrans String strLe :=
  ⟨fun a b c => charListLe_trans a.data b.data c.data⟩

instance : IsTotal (String × List Nat) entryLe :=
  ⟨fun a b => charListLe_total (casefold a.1).data (casefold b.1).data⟩

instance : IsTrans (String × List Nat) entryLe :=
  ⟨fun a b c => charListLe_trans (casefold a.1).data (casefold b.1).data (casefold c.1).data⟩

theorem sortStrings_sorted (l : List String) : List.Sorted strLe (sortStrings l) :=
  List.sorted_insertionSort strLe l

theorem sortStrings_perm (l : List String) : (sortStrings l).Perm l :=
  List.perm_insertionSort strLe l

/-! ## Claim C6 — unknown backend name in a page-number update -/

/-- Claim C6, counterexample.  The claim states that `increment_page` with
an unknown format name fails at the point of the call, and that a failing
`set_page` call leaves the entries for known formats unchanged.  Neither is
what the code does: `increment_page(initPage, "html")` returns normally (the
`KeyError` is caught and ignored), and `set_page(pdf=5, html=3)` raises on
`html` only after having already assigned `page["pdf"] = 5`. -/
theorem c6_counterexample :
    increment_page initPage "html" = initPage ∧
    (set_page [("pdf", some 5), ("html", some 3)] initPage).2 = some "html" ∧
    (set_page [("pdf", some 5), ("html", some 3)] initPage).1 =
      [("pdf", 5), ("docx", 1), ("epub", 1)] := by
  decide

/-- Claim C6, amended: `set_page` signals a `ValueError` at the first
keyword whose name is not a key of the page mapping, with the entries listed
before it already assigned (when the unknown name comes first, the mapping
is returned unchanged); `increment_page` with an unknown name is silently
ignored and leaves the mapping unchanged. -/
theorem c6_unknown_format (page : PageMap) (rest : List (String × Option Nat))
    (format : String) (number : Option Nat) (h : lookupPage page format = none) :
    set_page ((format, number) :: rest) page = (page, some format) ∧
    increment_page page format = page := by
  constructor
  · simp [set_page, h]
  · simp [increment_page, h]

/-- Witness for `c6_unknown_format` at the initial page mapping and the
unknown format name `html`. -/
theorem c6_unknown_format_witness :
    lookupPage initPage "html" = none ∧
    set_page [("html", some 3)] initPage = (initPage, some "html") ∧
    increment_page initPage "html" = initPage :=
  ⟨by decide,
   (c6_unknown_format initPage [] "html" (some 3) (by decide)).1,
   (c6_unknown_format initPage [] "html" (some 3) (by decide)).2⟩

/-! ## Claim C10 — `add_indexed` is total only for truthy canonical terms -/

theorem mem_insertLoc (locs : List Nat) (loc : Nat) : loc ∈ insertLoc locs loc := by
  unfold insertLoc
  split <;> simp_all

theorem lookupInd_setdefaultAdd (ind : Indexed) (c : String) (loc : Nat) :
    lookupInd (setdefaultAdd ind c loc) c =
      some (insertLoc ((lookupInd ind c).getD []) loc) := by
  induction ind with
  | nil => simp [setdefaultAdd, lookupInd, List.lookup, insertLoc]
  | cons e rest ih =>
    obtain ⟨k, ls⟩ := e
    by_cases hk : k = c
    · subst hk
      simp [setdefaultAdd, lookupInd, List.lookup]
    · have hk2 : (c == k) = false := by
        simp [beq_iff_eq]
        exact fun hc => hk hc.symm
      simp only [setdefaultAdd, if_neg hk, lookupInd, List.lookup, hk2] at ih ⊢
      exact ih

/-- Claim C10: `BaseDocument.add_indexed` fails with `NameError` (the
fallback expression `canonical or text` names the unbound `text`) exactly
when its canonical argument is falsy (`None` or the empty string); for a
truthy canonical it succeeds and records the current location in the index
set of that canonical term. -/
theorem c10_add_indexed (ind : Indexed) (canonical : Option String) (loc : Nat) :
    ((canonical = none ∨ canonical = some "") →
      add_indexed ind canonical loc = .error nameErrorText) ∧
    (∀ c : String, canonical = some c → c ≠ "" →
      add_indexed ind canonical loc = .ok (setdefaultAdd ind c loc) ∧
      ∃ ls, lookupInd (setdefaultAdd ind c loc) c = some ls ∧ loc ∈ ls) := by
  constructor
  · rintro (h | h) <;> subst h <;> simp [add_indexed]
  · rintro c rfl hc
    refine ⟨by simp [add_indexed, hc], ?_⟩
    exact ⟨_, lookupInd_setdefaultAdd ind c loc, mem_insertLoc _ _⟩

/-- Witness for `c10_add_indexed`: the falsy arguments `None` and `""` fail
with the unbound-name error; the truthy canonical term `Sage, Mr` succeeds
and records the location. -/
theorem c10_add_indexed_witness :
    add_indexed [] none 5 = .error nameErrorText ∧
    add_indexed [] (some "") 5 = .error nameErrorText ∧
    add_indexed [] (some "Sage, Mr") 5 = .ok (setdefaultAdd [] "Sage, Mr" 5) :=
  ⟨(c10_add_indexed [] none 5).1 (Or.inl rfl),
   (c10_add_indexed [] (some "") 5).1 (Or.inr rfl),
   ((c10_add_indexed [] (some "Sage, Mr") 5).2 "Sage, Mr" rfl (by decide)).1⟩

/-! ## Claim C3 — footnote numbering -/

theorem fn_foldl (ops : List FnOp) :
    ∀ k, List.foldl fnStep (List.range' 1 k) ops =
      List.range' 1 (countSinceFlushFrom k ops) := by
  induction ops with
  | nil => intro k; rfl
  | cons op ops ih =>
    intro k
    cases op with
    | create =>
      have h1 : fnStep (List.range' 1 k) .create = List.range' 1 (k + 1) := by
        simp [fnStep, List.range'_concat, List.length_range', Nat.add_comm]
      rw [List.foldl_cons, h1]
      exact ih (k + 1)
    | flushNotes =>
      rw [List.foldl_cons]
      exact ih 0

theorem fnPair_fst (ops : List FnOp) :
    ∀ st acc, (List.foldl fnPairStep (st, acc) ops).1 = List.foldl fnStep st ops := by
  induction ops with
  | nil => intro st acc; rfl
  | cons op ops ih =>
    intro st acc
    cases op with
    | create => exact ih _ _
    | flushNotes => exact ih _ _

/-- Claim C3, counterexample.  The claim states that footnote numbers are
strictly increasing by one across the whole document regardless of how many
footnote flushes intervene.  The code assigns
`len(self.document.footnotes) + 1`, and `output_footnotes_list` resets
`self.footnotes` to `[]`, so the trace create–flush–create hands out the
numbers 1 and 1: numbering restarts after a mid-document flush (reachable
through `Section.output_footnotes`). -/
theorem c3_counterexample :
    assignedNumbers [FnOp.create, FnOp.flushNotes, FnOp.create] = [1, 1] ∧
    ¬ List.Pairwise (· < ·)
        (assignedNumbers [FnOp.create, FnOp.flushNotes, FnOp.create]) := by
  decide

/-- Claim C3, amended: footnote numbers are assigned at creation time and
are strictly increasing by one starting at 1 *within each stretch between
footnote flushes*: after any trace the pending footnote numbers are exactly
`1, 2, ..., k` where `k` counts the footnotes created since the last flush,
and the next created footnote receives the number `k + 1`. -/
theorem c3_footnote_numbering (ops : List FnOp) :
    fnRun ops = List.range' 1 (countSinceFlush ops) ∧
    assignedNumbers (ops ++ [FnOp.create]) =
      assignedNumbers ops ++ [countSinceFlush ops + 1] := by
  have h1 : fnRun ops = List.range' 1 (countSinceFlush ops) := fn_foldl ops 0
  refine ⟨h1, ?_⟩
  unfold assignedNumbers
  rw [List.foldl_append]
  have hfst : (List.foldl fnPairStep ([], []) ops).1 = fnRun ops := fnPair_fst ops [] []
  simp only [List.foldl_cons, List.foldl_nil, fnPairStep]
  rw [hfst, h1, List.length_range']

/-! ## Claim C4 — whitespace handling of `Paragraph.add` -/

theorem pysplitGo_space (c : Char) (h : isPySpace c = true) (cur l : List Char) :
    pysplitGo cur (c :: l) =
      if cur.isEmpty then pysplitGo [] l
      else String.mk cur.reverse :: pysplitGo [] l := by
  simp [pysplitGo, h]

theorem pysplitGo_newline (l : List Char) :
    ∀ cur, pysplitGo cur (l.map fun c => if c = '\n' then ' ' else c) = pysplitGo cur l := by
  induction l with
  | nil => intro cur; rfl
  | cons c rest ih =>
    intro cur
    by_cases hc : c = '\n'
    · subst hc
      rw [List.map_cons,
        show (if ('\n' : Char) = '\n' then ' ' else '\n') = ' ' by decide,
        pysplitGo_space ' ' rfl, pysplitGo_space '\n' rfl]
      simp only [ih]
    · rw [List.map_cons, if_neg hc]
      simp only [pysplitGo]
      split
      · split
        · exact ih []
        · rw [ih []]
      · exact ih (c :: cur)

theorem pysplit_replaceNewlines (s : String) :
    pysplit (replaceNewlines s) = pysplit s :=
  pysplitGo_newline s.data []

theorem join_cons (s : String) (l : List String) :
    String.join (s :: l) = s ++ String.join l := by
  apply String.ext
  simp [String.join_eq]

/-- Claim C4, counterexample.  The claim quantifies over every backend, but
the PDF backend's `Paragraph.add` appends the text verbatim (whitespace
collapsing is left to reportlab) and prepends its blank unconditionally: on
an empty PDF paragraph, text with an embedded newline yields different
buffered content than the same text with the newline replaced by a space,
and `add` differs from `add(..., raw=True)`. -/
theorem c4_counterexample :
    pdfAdd [] "a\nb" false ≠ pdfAdd [] (replaceNewlines "a\nb") false ∧
    pdfAdd [] "x" false ≠ pdfAdd [] "x" true := by
  decide

/-- Claim C4, amended: in the DOCX backend, `Paragraph.add` treats newlines
as ordinary whitespace (pre-replacing newlines by blanks changes nothing),
collapses whitespace runs, prepends a separator only when the paragraph
already has content, and on a not-yet-started paragraph `add` produces the
same run as `add(..., raw=True)`.  The PDF and EPUB backends instead buffer
the text verbatim (see the counterexample). -/
theorem c4_docx_add :
    (∀ (ls raw : Bool) (text : String),
      docxAddRun ls (replaceNewlines text) raw = docxAddRun ls text raw) ∧
    (∀ (runs : List String) (text : String),
      DocxPar.add ⟨runs, false⟩ text false = DocxPar.add ⟨runs, false⟩ text true) ∧
    (∀ text : String, docxAddRun true text false = " " ++ docxAddRun true text true) := by
  refine ⟨?_, ?_, ?_⟩
  · intro ls raw text
    unfold docxAddRun
    rw [pysplit_replaceNewlines]
  · intro runs text
    rfl
  · intro text
    show String.join ((if (false || !true) = true then [] else [" "]) ++
          joinWithBlanks (pysplit text)) =
        " " ++ String.join ((if (true || !true) = true then [] else [" "]) ++
          joinWithBlanks (pysplit text))
    rw [show (if (false || !true) = true then ([] : List String) else [" "]) = [" "] from rfl,
      show (if (true || !true) = true then ([] : List String) else [" "]) = [] from rfl,
      List.nil_append]
    exact join_cons " " _

/-! ## Claim C5 — flush is a no-op without a pending paragraph, and idempotent -/

theorem pdf_flush_flush (d : PdfDoc) : d.flush.flush = d.flush := by
  match h : d.pending with
  | none => simp [PdfDoc.flush, h]
  | some (st, buf) => simp [PdfDoc.flush, h]

theorem epub_flush_flush (d : EpubDoc) : d.flush.flush = d.flush := by
  match h : d.pending with
  | none => simp [EpubDoc.flush, h]
  | some (tag, cs) => simp [EpubDoc.flush, h]

/-- Claim C5: in both deferred backends (PDF and EPUB), `Document.flush`
with no pending paragraph leaves the document unchanged; flushing twice in a
row equals flushing once; and after building one paragraph, flushing (once
or twice) materializes exactly one new flowable. -/
theorem c5_flush_idempotent :
    (∀ (fl : List (String × String)) (pn : Bool) (pc : Nat),
      PdfDoc.flush ⟨fl, none, pn, pc⟩ = ⟨fl, none, pn, pc⟩) ∧
    (∀ d : PdfDoc, d.flush.flush = d.flush) ∧
    (∀ (d : PdfDoc) (t : String),
      (d.newParagraph (some t)).flush.flush = (d.newParagraph (some t)).flush ∧
      ((d.newParagraph (some t)).flush).flowables.length =
        (d.flush).flowables.length + 1) ∧
    (∀ (buf : List String) (pn : Bool) (pc : Nat),
      EpubDoc.flush ⟨buf, none, pn, pc⟩ = ⟨buf, none, pn, pc⟩) ∧
    (∀ d : EpubDoc, d.flush.flush = d.flush) := by
  refine ⟨fun fl pn pc => rfl, pdf_flush_flush, ?_, fun buf pn pc => rfl, epub_flush_flush⟩
  intro d t
  refine ⟨pdf_flush_flush _, ?_⟩
  simp [PdfDoc.newParagraph, PdfDoc.addPending, PdfDoc.flush, PdfDoc.output, pdfAdd]

/-! ## Claim C1 — the deferred-paragraph (flush) discipline -/

theorem pendingCount_le_one {α : Type} (o : Option α) : pendingCount o ≤ 1 := by
  cases o <;> simp [pendingCount]

/-- Claim C1, counterexample.  The claim quantifies over every backend, but
the DOCX backend is eager: `Paragraph.__init__` calls
`document.docx.add_paragraph(...)` and `add` calls
`self.paragraph.add_run(...)`, so `Document.paragraph("x")` puts the
paragraph and its content into the docx output tree immediately, while the
docx document's `flush` (the inherited `BaseDocument.flush`, whose body is
`pass`) changes nothing — materialization happens at add-time, not at a
flush point. -/
theorem c1_counterexample :
    (docxInit.paragraph (some "x")).body =
      [{ runs := ["x"], line_started := true }] ∧
    docxInit.body = [] ∧
    DocxDoc.flush (docxInit.paragraph (some "x")) = docxInit.paragraph (some "x") ∧
    DocxDoc.flush docxInit = docxInit := by
  decide

/-- Claim C1, amended: in the PDF and EPUB backends the claim holds — a
content `add` never changes the materialized output (flowables / chapter
buffer); every operation that starts a new top-level construct (paragraph,
quote, thematic break, page break, section, list, write, flush) behaves as
if the pending paragraph had been flushed first; and the document holds at
most one pending paragraph.  The DOCX backend instead materializes eagerly
at creation/add time (see the counterexample). -/
theorem c1_flush_discipline :
    (∀ (d : PdfDoc) (op : PdfOp),
      (pdfFlushPoint op = false → (pdfStep d op).flowables = d.flowables) ∧
      (pdfFlushPoint op = true → pdfStep d op = pdfStep d.flush op) ∧
      pendingCount (pdfStep d op).pending ≤ 1) ∧
    (∀ (d : EpubDoc) (op : EpubOp),
      (epubFlushPoint op = false → (epubStep d op).buffer = d.buffer) ∧
      (epubFlushPoint op = true → epubStep d op = epubStep d.flush op) ∧
      pendingCount (epubStep d op).pending ≤ 1) := by
  constructor
  · intro d op
    refine ⟨?_, ?_, pendingCount_le_one _⟩
    · intro h
      cases op <;>
        first
        | (simp only [pdfFlushPoint] at h; exact Bool.noConfusion h)
        | (rcases hp : d.pending with _ | ⟨st, buf⟩ <;>
            simp [pdfStep, PdfDoc.addPending, hp])
    · intro h
      cases op <;>
        simp [pdfStep, PdfDoc.newParagraph, PdfDoc.newQuote, pdf_flush_flush] <;>
        simp [pdfFlushPoint] at h
  · intro d op
    refine ⟨?_, ?_, pendingCount_le_one _⟩
    · intro h
      cases op <;>
        first
        | (simp only [epubFlushPoint] at h; exact Bool.noConfusion h)
        | (rcases hp : d.pending with _ | ⟨tag, cs⟩ <;>
            simp [epubStep, EpubDoc.addPending, hp])
    · intro h
      cases op <;>
        simp [epubStep, EpubDoc.newParagraph, EpubDoc.newQuote, epub_flush_flush] <;>
        simp [epubFlushPoint] at h

/-- Witness for `c1_flush_discipline`: on a PDF document with a pending
paragraph, a content add leaves the flowables untouched, and a pagebreak
behaves as flush-then-pagebreak; likewise for EPUB. -/
theorem c1_flush_discipline_witness :
    (pdfStep ⟨[], some ("Normal", ["y"]), false, 1⟩ (PdfOp.addText "x" false)).flowables
      = [] ∧
    pdfStep ⟨[], some ("Normal", ["y"]), false, 1⟩ PdfOp.pagebreak =
      pdfStep (PdfDoc.flush ⟨[], some ("Normal", ["y"]), false, 1⟩) PdfOp.pagebreak ∧
    (epubStep ⟨[], some ("p", ["y"]), false, 1⟩ (EpubOp.addText "x" false)).buffer
      = [] :=
  ⟨(c1_flush_discipline.1 ⟨[], some ("Normal", ["y"]), false, 1⟩
      (PdfOp.addText "x" false)).1 rfl,
   (c1_flush_discipline.1 ⟨[], some ("Normal", ["y"]), false, 1⟩ PdfOp.pagebreak).2.1 rfl,
   (c1_flush_discipline.2 ⟨[], some ("p", ["y"]), false, 1⟩
      (EpubOp.addText "x" false)).1 rfl⟩

/-! ## Claim C7 — citing an undefined reference key -/

/-- Claim C7: citing a key missing from the registry does not raise; it
appends the placeholder `[ref? key]` to the paragraph, leaves the registry
(and in particular its used set) unchanged even when the same undefined key
is cited twice, and `output_references` renders nothing and opens no section
while the used set is empty. -/
theorem c7_missing_reference (r : References) (para : List String) (key : String)
    (h : r.getItem key = none) :
    r.add para key = (r, para ++ ["[ref? " ++ key ++ "]"]) ∧
    ((r.add para key).1.add (r.add para key).2 key).2 =
      para ++ ["[ref? " ++ key ++ "]", "[ref? " ++ key ++ "]"] ∧
    ((r.add para key).1.add (r.add para key).2 key).1.used = r.used ∧
    (r.used = [] →
      (((r.add para key).1.add (r.add para key).2 key).1).outputReferences = none) := by
  have h1 : r.add para key = (r, para ++ ["[ref? " ++ key ++ "]"]) := by
    simp [References.add, h]
  refine ⟨h1, ?_, ?_, ?_⟩
  · rw [h1]
    simp [References.add, h]
  · rw [h1]
    simp [References.add, h]
  · intro hu
    rw [h1]
    simp [References.add, References.outputReferences, h, hu]

/-- Witness for `c7_missing_reference`: a one-item registry and the
undefined key `jones`. -/
theorem c7_missing_reference_witness :
    (References.mk [("smith", ⟨"smith", "A Title"⟩)] []).getItem "jones" = none ∧
    (References.mk [("smith", ⟨"smith", "A Title"⟩)] []).add [] "jones" =
      (References.mk [("smith", ⟨"smith", "A Title"⟩)] [],
        [] ++ ["[ref? " ++ "jones" ++ "]"]) ∧
    ((((References.mk [("smith", ⟨"smith", "A Title"⟩)] []).add [] "jones").1.add
        (((References.mk [("smith", ⟨"smith", "A Title"⟩)] []).add [] "jones").2)
        "jones").1).outputReferences = none :=
  ⟨by decide,
   (c7_missing_reference (References.mk [("smith", ⟨"smith", "A Title"⟩)] [])
     [] "jones" (by decide)).1,
   (c7_missing_reference (References.mk [("smith", ⟨"smith", "A Title"⟩)] [])
     [] "jones" (by decide)).2.2.2 rfl⟩

/-! ## Claim C8 — bibliography iteration -/

/-- Claim C8, counterexample.  The claim states that iterating the registry
yields each distinct cited reference exactly once regardless of the letter
case used at the citation sites.  But `References.add` stores the key
exactly as cited (`self.used.add(reference)`, not the casefolded form), so
citing `Smith` and then `smith` — both resolving case-insensitively to the
same record — puts two keys into the used set and the iteration yields the
same record twice. -/
theorem c8_counterexample :
    (((References.mk [("smith", ⟨"smith", "A Title"⟩)] []).add [] "Smith").1.add
        [] "smith").1.used = ["Smith", "smith"] ∧
    (((References.mk [("smith", ⟨"smith", "A Title"⟩)] []).add [] "Smith").1.add
        [] "smith").1.iter =
      [⟨"smith", "A Title"⟩, ⟨"smith", "A Title"⟩] := by
  decide

theorem References.add_items (r : References) (p : List String) (k : String) :
    ((r.add p k).1).items = r.items := by
  cases h : r.getItem k <;> simp [References.add, h]

theorem References.add_used_hit (r : References) (p : List String) (k : String)
    (h : (r.getItem k).isSome = true) :
    ((r.add p k).1).used = insertUsed k r.used := by
  match hg : r.getItem k with
  | none => rw [hg] at h; exact Bool.noConfusion h
  | some item => simp [References.add, hg]

theorem insertUsed_nodup (k : String) (used : List String) (h : used.Nodup) :
    (insertUsed k used).Nodup := by
  by_cases hk : k ∈ used
  · simpa [insertUsed, hk] using h
  · simp [insertUsed, hk, List.nodup_append, h]

theorem mem_insertUsed (a k : String) (used : List String) :
    a ∈ insertUsed k used ↔ a = k ∨ a ∈ used := by
  by_cases hk : k ∈ used
  · simp only [insertUsed, if_pos hk]
    constructor
    · exact Or.inr
    · rintro (rfl | h)
      · exact hk
      · exact h
  · simp [insertUsed, hk, List.mem_append, or_comm]

theorem foldl_insertUsed_nodup (keys : List String) :
    ∀ acc : List String, acc.Nodup →
      (keys.foldl (fun acc k => insertUsed k acc) acc).Nodup := by
  induction keys with
  | nil => intro acc h; exact h
  | cons k ks ih => intro acc h; exact ih _ (insertUsed_nodup k acc h)

theorem mem_foldl_insertUsed (keys : List String) :
    ∀ (acc : List String) (a : String),
      a ∈ keys.foldl (fun acc k => insertUsed k acc) acc ↔ a ∈ keys ∨ a ∈ acc := by
  induction keys with
  | nil => intro acc a; simp
  | cons k ks ih =>
    intro acc a
    rw [List.foldl_cons, ih, mem_insertUsed, List.mem_cons]
    tauto

theorem citeAll_spec (keys : List String) :
    ∀ r : References, (∀ k ∈ keys, (r.getItem k).isSome = true) →
      (citeAll r keys).items = r.items ∧
      (citeAll r keys).used = keys.foldl (fun acc k => insertUsed k acc) r.used := by
  induction keys with
  | nil => intro r _; exact ⟨rfl, rfl⟩
  | cons k ks ih =>
    intro r h
    have hk : (r.getItem k).isSome = true := h k (by simp)
    have hitems : ((r.add [] k).1).items = r.items := References.add_items r [] k
    have hused : ((r.add [] k).1).used = insertUsed k r.used :=
      References.add_used_hit r [] k hk
    have hrest : ∀ k2 ∈ ks, (((r.add [] k).1).getItem k2).isSome = true := by
      intro k2 hk2
      have : ((r.add [] k).1).getItem k2 = r.getItem k2 := by
        unfold References.getItem
        rw [hitems]
      rw [this]
      exact h k2 (by simp [hk2])
    obtain ⟨hi, hu⟩ := ih (r.add [] k).1 hrest
    constructor
    · rw [show citeAll r (k :: ks) = citeAll (r.add [] k).1 ks from rfl, hi, hitems]
    · rw [show citeAll r (k :: ks) = citeAll (r.add [] k).1 ks from rfl, hu, hused,
        List.foldl_cons]

/-- Claim C8, amended: after a sequence of successful citations (keys that
resolve case-insensitively), iterating the registry yields the records of
the used set — which holds each *as-cited* key exactly once — in Python
sorted order of the as-cited keys.  Distinct case variants of the same key
are distinct used entries (see the counterexample), so "exactly once"
applies to as-cited key variants, not to distinct referenced records. -/
theorem c8_iter_used (r0 : References) (keys : List String)
    (h0 : r0.used = []) (h : ∀ k ∈ keys, (r0.getItem k).isSome = true) :
    (citeAll r0 keys).items = r0.items ∧
    (citeAll r0 keys).used = dedupKeys keys ∧
    (dedupKeys keys).Nodup ∧
    (∀ k, k ∈ dedupKeys keys ↔ k ∈ keys) ∧
    (citeAll r0 keys).iter = (sortStrings (dedupKeys keys)).filterMap r0.getItem ∧
    List.Sorted strLe (sortStrings (dedupKeys keys)) := by
  obtain ⟨hitems, hused⟩ := citeAll_spec keys r0 h
  rw [h0] at hused
  have hused2 : (citeAll r0 keys).used = dedupKeys keys := hused
  have hget : (citeAll r0 keys).getItem = r0.getItem := by
    funext k2
    unfold References.getItem
    rw [hitems]
  refine ⟨hitems, hused2, foldl_insertUsed_nodup keys [] List.nodup_nil, ?_, ?_, ?_⟩
  · intro k
    have := mem_foldl_insertUsed keys [] k
    simpa [dedupKeys] using this
  · unfold References.iter
    rw [hused2, hget]
  · exact List.sorted_insertionSort strLe _

/-- Witness for `c8_iter_used`: a two-item registry cited with a repeated
key; the iteration is the sorted deduplicated lookup, concretely one record
per distinct as-cited key. -/
theorem c8_iter_used_witness :
    (citeAll (References.mk [("alpha", ⟨"alpha", "TA"⟩), ("beta", ⟨"beta", "TB"⟩)] [])
        ["beta", "alpha", "beta"]).iter =
      (sortStrings (dedupKeys ["beta", "alpha", "beta"])).filterMap
        (References.getItem
          (References.mk [("alpha", ⟨"alpha", "TA"⟩), ("beta", ⟨"beta", "TB"⟩)] [])) ∧
    (citeAll (References.mk [("alpha", ⟨"alpha", "TA"⟩), ("beta", ⟨"beta", "TB"⟩)] [])
        ["beta", "alpha", "beta"]).iter =
      [⟨"alpha", "TA"⟩, ⟨"beta", "TB"⟩] :=
  ⟨(c8_iter_used
      (References.mk [("alpha", ⟨"alpha", "TA"⟩), ("beta", ⟨"beta", "TB"⟩)] [])
      ["beta", "alpha", "beta"] rfl (by decide)).2.2.2.2.1,
   by decide⟩

/-! ## Claim C2 — dotted section numbers -/

theorem incLast_concat (l : List Nat) (n : Nat) : incLast (l ++ [n]) = l ++ [n + 1] := by
  induction l with
  | nil => rfl
  | cons a l ih =>
    cases l with
    | nil => rfl
    | cons b t =>
      show a :: incLast ((b :: t) ++ [n]) = a :: ((b :: t) ++ [n + 1])
      rw [ih]

theorem walkPos_enter (stack : Walk) (h : stack ≠ []) :
    walkPos ([] :: stack) = walkPos stack ++ [headLen stack + 1] := by
  match stack, h with
  | f :: rest, _ =>
    simp [walkPos, headLen]

/-- The refinement invariant between the code's counter stack and the
tree-walk specification: the counter stack is the ordinal path of the
current open section followed by the number of its completed children. -/
theorem sec_walk_inv (ops : List SecOp) :
    ∀ (counts : List Nat) (stack : Walk),
      balancedFrom (stack.length - 1) ops = true →
      stack ≠ [] →
      counts = walkPos stack ++ [headLen stack] →
      (ops.foldl walkStep stack ≠ [] ∧
        ops.foldl secStep counts =
          walkPos (ops.foldl walkStep stack) ++ [headLen (ops.foldl walkStep stack)]) := by
  induction ops with
  | nil => intro counts stack _ hne hinv; exact ⟨hne, hinv⟩
  | cons op ops ih =>
    intro counts stack hb hne hinv
    cases op with
    | enter =>
      rw [List.foldl_cons, List.foldl_cons]
      apply ih
      · match stack, hne with
        | s :: ss, _ => simpa [balancedFrom, walkStep] using hb
      · simp [walkStep]
      · have hws : walkStep stack SecOp.enter = [] :: stack := by
          simp [walkStep]
        have hss : secStep counts SecOp.enter = incLast counts ++ [0] := rfl
        rw [hws, hss, hinv, incLast_concat, walkPos_enter stack hne]
        simp [headLen]
    | leave =>
      match stack, hne with
      | [f], _ =>
        simp [balancedFrom] at hb
      | f :: parent :: rest, _ =>
        rw [List.foldl_cons, List.foldl_cons]
        apply ih
        · simpa [balancedFrom, walkStep] using hb
        · simp [walkStep]
        · show counts.dropLast =
            walkPos ((parent ++ [STree.node f]) :: rest) ++
              [headLen ((parent ++ [STree.node f]) :: rest)]
          rw [hinv, List.dropLast_concat]
          simp [walkPos, headLen]

theorem balancedFrom_append_enter (ops : List SecOp) :
    ∀ d, balancedFrom d ops = true → balancedFrom d (ops ++ [SecOp.enter]) = true := by
  induction ops with
  | nil => intro d _; simp [balancedFrom]
  | cons op ops ih =>
    intro d h
    cases op with
    | enter =>
      simp only [List.cons_append, balancedFrom] at h ⊢
      exact ih (d + 1) h
    | leave =>
      cases d with
      | zero => simp [balancedFrom] at h
      | succ d =>
        simp only [List.cons_append, balancedFrom] at h ⊢
        exact ih d h

/-- Claim C2: for every balanced sequence of section constructions, entries
and exits, the `number()` printed for the section entered next equals the
dot-joined path of 1-based sibling ordinals from the root down to that
section (as read off from the actual tree of sibling subtrees), followed by
a trailing dot. -/
theorem c2_section_number (ops : List SecOp) (h : balancedFrom 0 ops = true) :
    sectionNumber (secRun (ops ++ [SecOp.enter])) =
      String.intercalate "."
        ((walkPos (walkRun (ops ++ [SecOp.enter]))).map fun n => toString n) ++ "." := by
  have hb : balancedFrom 0 (ops ++ [SecOp.enter]) = true :=
    balancedFrom_append_enter ops 0 h
  obtain ⟨hne, hinv⟩ :=
    sec_walk_inv (ops ++ [SecOp.enter]) [0] [[]] (by simpa using hb) (by simp)
      (by simp [walkPos, headLen])
  unfold secRun walkRun sectionNumber
  rw [hinv, List.dropLast_concat]

/-- Witness for `c2_section_number`: the build that enters the third
top-level section, builds and closes its first child, and then enters the
second child — numbered `3.2.`. -/
theorem c2_section_number_witness :
    balancedFrom 0
        [SecOp.enter, SecOp.leave, SecOp.enter, SecOp.leave, SecOp.enter,
          SecOp.enter, SecOp.leave] = true ∧
    sectionNumber
        (secRun
          ([SecOp.enter, SecOp.leave, SecOp.enter, SecOp.leave, SecOp.enter,
            SecOp.enter, SecOp.leave] ++ [SecOp.enter])) =
      String.intercalate "."
        ((walkPos
            (walkRun
              ([SecOp.enter, SecOp.leave, SecOp.enter, SecOp.leave, SecOp.enter,
                SecOp.enter, SecOp.leave] ++ [SecOp.enter]))).map fun n => toString n)
        ++ "." ∧
    sectionNumber
        (secRun
          ([SecOp.enter, SecOp.leave, SecOp.enter, SecOp.leave, SecOp.enter,
            SecOp.enter, SecOp.leave] ++ [SecOp.enter])) = "3.2." :=
  ⟨by decide,
   c2_section_number
     [SecOp.enter, SecOp.leave, SecOp.enter, SecOp.leave, SecOp.enter,
       SecOp.enter, SecOp.leave] (by decide),
   by decide⟩

/-! ## Claim C9 — the rendered index -/

theorem keys_setdefaultAdd (ind : Indexed) (c : String) (loc : Nat) :
    (setdefaultAdd ind c loc).map Prod.fst =
      if c ∈ ind.map Prod.fst then ind.map Prod.fst else ind.map Prod.fst ++ [c] := by
  induction ind with
  | nil => simp [setdefaultAdd]
  | cons e rest ih =>
    obtain ⟨k, ls⟩ := e
    by_cases hk : k = c
    · subst hk
      simp [setdefaultAdd]
    · simp only [setdefaultAdd, if_neg hk, List.map_cons, ih]
      by_cases hc : c ∈ rest.map Prod.fst <;> simp [hc, Ne.symm hk]

theorem keysNodup_setdefaultAdd (ind : Indexed) (c : String) (loc : Nat)
    (h : (ind.map Prod.fst).Nodup) :
    ((setdefaultAdd ind c loc).map Prod.fst).Nodup := by
  rw [keys_setdefaultAdd]
  by_cases hc : c ∈ ind.map Prod.fst <;> simp [hc, List.nodup_append, h]

theorem insertLoc_nodup (locs : List Nat) (loc : Nat) (h : locs.Nodup) :
    (insertLoc locs loc).Nodup := by
  by_cases hl : loc ∈ locs <;> simp [insertLoc, hl, List.nodup_append, h]

theorem locsNodup_setdefaultAdd (ind : Indexed) (c : String) (loc : Nat) :
    (∀ e ∈ ind, List.Nodup e.2) →
    ∀ e ∈ setdefaultAdd ind c loc, List.Nodup e.2 := by
  induction ind with
  | nil =>
    intro _ e he
    simp only [setdefaultAdd, List.mem_singleton] at he
    subst he
    simp
  | cons f rest ih =>
    obtain ⟨k, ls⟩ := f
    intro h e he
    by_cases hk : k = c
    · subst hk
      rw [show setdefaultAdd ((k, ls) :: rest) k loc = (k, insertLoc ls loc) :: rest by
        simp [setdefaultAdd]] at he
      rcases List.mem_cons.mp he with he1 | he1
      · subst he1
        exact insertLoc_nodup ls loc (h (k, ls) (List.mem_cons_self _ _))
      · exact h e (List.mem_cons_of_mem _ he1)
    · rw [show setdefaultAdd ((k, ls) :: rest) c loc = (k, ls) :: setdefaultAdd rest c loc by
        simp [setdefaultAdd, hk]] at he
      rcases List.mem_cons.mp he with he1 | he1
      · subst he1
        exact h (k, ls) (List.mem_cons_self _ _)
      · exact ih (fun e2 he2 => h e2 (List.mem_cons_of_mem _ he2)) e he1

theorem buildIndexed_keysNodup (adds : List (String × Nat)) :
    ∀ ind : Indexed, (ind.map Prod.fst).Nodup →
      ((adds.foldl (fun ind a => setdefaultAdd ind a.1 a.2) ind).map Prod.fst).Nodup := by
  induction adds with
  | nil => intro ind h; exact h
  | cons a rest ih =>
    intro ind h
    exact ih _ (keysNodup_setdefaultAdd ind a.1 a.2 h)

theorem buildIndexed_locsNodup (adds : List (String × Nat)) :
    ∀ ind : Indexed, (∀ e ∈ ind, List.Nodup e.2) →
      ∀ e ∈ adds.foldl (fun ind a => setdefaultAdd ind a.1 a.2) ind, List.Nodup e.2 := by
  induction adds with
  | nil => intro ind h; exact h
  | cons a rest ih =>
    intro ind h
    exact ih _ (locsNodup_setdefaultAdd ind a.1 a.2 h)

theorem lookupInd_setdefaultAdd_ne (ind : Indexed) (c k : String) (loc : Nat)
    (h : c ≠ k) :
    lookupInd (setdefaultAdd ind k loc) c = lookupInd ind c := by
  induction ind with
  | nil =>
    have hck : (c == k) = false := by
      simp [beq_iff_eq, h]
    simp [setdefaultAdd, lookupInd, List.lookup, hck]
  | cons e rest ih =>
    obtain ⟨k2, ls⟩ := e
    by_cases hk2 : k2 = k
    · subst hk2
      have hck : (c == k2) = false := by
        simp [beq_iff_eq, h]
      simp [setdefaultAdd, lookupInd, List.lookup, hck]
    · simp only [setdefaultAdd, if_neg hk2, lookupInd, List.lookup] at ih ⊢
      cases hc : (c == k2) with
      | true => rfl
      | false => exact ih

theorem mem_insertLoc_iff (locs : List Nat) (l loc : Nat) :
    loc ∈ insertLoc locs l ↔ loc ∈ locs ∨ loc = l := by
  by_cases hl : l ∈ locs
  · simp only [insertLoc, if_pos hl]
    constructor
    · exact Or.inl
    · rintro (h | rfl)
      · exact h
      · exact hl
  · simp [insertLoc, hl]

theorem build_mem (adds : List (String × Nat)) :
    ∀ (ind : Indexed) (c : String) (loc : Nat),
      loc ∈ (lookupInd (adds.foldl (fun ind a => setdefaultAdd ind a.1 a.2) ind) c).getD []
        ↔ (c, loc) ∈ adds ∨ loc ∈ (lookupInd ind c).getD [] := by
  induction adds with
  | nil => intro ind c loc; simp
  | cons a rest ih =>
    obtain ⟨k, l⟩ := a
    intro ind c loc
    rw [List.foldl_cons, ih]
    by_cases hck : c = k
    · subst hck
      rw [lookupInd_setdefaultAdd]
      simp only [Option.getD_some, mem_insertLoc_iff, List.mem_cons, Prod.mk.injEq,
        true_and]
      tauto
    · rw [lookupInd_setdefaultAdd_ne ind c k l hck]
      simp only [List.mem_cons, Prod.mk.injEq]
      tauto

theorem lookupInd_eq_some_iff (ind : Indexed) (c : String) (ls : List Nat) :
    (ind.map Prod.fst).Nodup → (lookupInd ind c = some ls ↔ (c, ls) ∈ ind) := by
  induction ind with
  | nil => intro _; simp [lookupInd, List.lookup]
  | cons e rest ih =>
    obtain ⟨k, v⟩ := e
    intro hk
    simp only [List.map_cons, List.nodup_cons] at hk
    obtain ⟨hknotin, hkrest⟩ := hk
    by_cases hck : c = k
    · subst hck
      have : (c == c) = true := by simp
      simp only [lookupInd, List.lookup, this, List.mem_cons, Prod.mk.injEq, true_and]
      constructor
      · intro hv
        left
        exact (Option.some_inj.mp hv).symm
      · rintro (rfl | hmem)
        · rfl
        · exact absurd (List.mem_map_of_mem Prod.fst hmem) hknotin
    · have hbeq : (c == k) = false := by simp [beq_iff_eq, hck]
      simp only [lookupInd, List.lookup, hbeq, List.mem_cons, Prod.mk.injEq]
      rw [← lookupInd]
      rw [ih hkrest]
      constructor
      · exact Or.inr
      · rintro (⟨h1, _⟩ | h)
        · exact absurd h1 hck
        · exact h

/-- Claim C9: the rendered index has exactly one entry per canonical term,
each entry's location list is duplicate-free and sorted in strictly
ascending order, the entries are ordered case-insensitively by canonical
term, and an entry for a canonical term lists a location exactly when some
`add_indexed` call recorded that location under that term. -/
theorem c9_output_indexed (adds : List (String × Nat)) :
    ((outputIndexedEntries (buildIndexed adds)).map Prod.fst).Nodup ∧
    (∀ e ∈ outputIndexedEntries (buildIndexed adds), List.Pairwise (· < ·) e.2) ∧
    List.Pairwise entryLe (outputIndexedEntries (buildIndexed adds)) ∧
    (∀ (c : String) (loc : Nat),
      (∃ ls, (c, ls) ∈ outputIndexedEntries (buildIndexed adds) ∧ loc ∈ ls) ↔
        (c, loc) ∈ adds) := by
  have hkeys : ((buildIndexed adds).map Prod.fst).Nodup :=
    buildIndexed_keysNodup adds [] (by simp)
  have hlocs : ∀ e ∈ buildIndexed adds, List.Nodup e.2 :=
    buildIndexed_locsNodup adds [] (by simp)
  have hperm : (List.insertionSort entryLe (buildIndexed adds)).Perm (buildIndexed adds) :=
    List.perm_insertionSort entryLe (buildIndexed adds)
  refine ⟨?_, ?_, ?_, ?_⟩
  · have hmap : (outputIndexedEntries (buildIndexed adds)).map Prod.fst =
        (List.insertionSort entryLe (buildIndexed adds)).map Prod.fst := by
      simp [outputIndexedEntries, List.map_map, Function.comp]
    rw [hmap]
    exact ((hperm.map Prod.fst).symm).nodup hkeys
  · intro e he
    simp only [outputIndexedEntries, List.mem_map] at he
    obtain ⟨⟨k, ls⟩, hmem, hfe⟩ := he
    have hls : ls.Nodup := hlocs (k, ls) (hperm.mem_iff.mp hmem)
    have hsorted : List.Sorted (· ≤ ·) (List.insertionSort (· ≤ ·) ls) :=
      List.sorted_insertionSort _ ls
    have hnodup : (List.insertionSort (· ≤ ·) ls).Nodup :=
      ((List.perm_insertionSort (· ≤ ·) ls).symm).nodup hls
    rw [← hfe]
    exact hsorted.lt_of_le hnodup
  · have hsorted : List.Pairwise entryLe (List.insertionSort entryLe (buildIndexed adds)) :=
      List.sorted_insertionSort entryLe (buildIndexed adds)
    unfold outputIndexedEntries
    rw [List.pairwise_map]
    exact hsorted
  · intro c loc
    constructor
    · rintro ⟨ls', hmem, hloc⟩
      simp only [outputIndexedEntries, List.mem_map] at hmem
      obtain ⟨⟨k, ls⟩, hmem2, hfe⟩ := hmem
      have hk : k = c := congrArg Prod.fst hfe
      subst hk
      have hls : ls' = List.insertionSort (· ≤ ·) ls := (congrArg Prod.snd hfe).symm
      subst hls
      have hloc2 : loc ∈ ls := (List.perm_insertionSort (· ≤ ·) ls).mem_iff.mp hloc
      have hmem3 : (k, ls) ∈ buildIndexed adds := hperm.mem_iff.mp hmem2
      have hlook : lookupInd (buildIndexed adds) k = some ls :=
        (lookupInd_eq_some_iff (buildIndexed adds) k ls hkeys).mpr hmem3
      have hthis : loc ∈ (lookupInd (buildIndexed adds) k).getD [] →
          (k, loc) ∈ adds ∨ loc ∈ (lookupInd ([] : Indexed) k).getD [] :=
        (build_mem adds [] k loc).mp
      rw [hlook] at hthis
      simpa [lookupInd, List.lookup] using hthis (by simpa using hloc2)
    · intro hadd
      have hmem : loc ∈ (lookupInd (buildIndexed adds) c).getD [] :=
        (build_mem adds [] c loc).mpr (Or.inl hadd)
      match hlook : lookupInd (buildIndexed adds) c with
      | none => rw [hlook] at hmem; simp at hmem
      | some ls =>
        rw [hlook] at hmem
        simp only [Option.getD_some] at hmem
        have hmem2 : (c, ls) ∈ buildIndexed adds :=
          (lookupInd_eq_some_iff (buildIndexed adds) c ls hkeys).mp hlook
        refine ⟨List.insertionSort (· ≤ ·) ls, ?_, ?_⟩
        · simp only [outputIndexedEntries, List.mem_map]
          exact ⟨(c, ls), hperm.mem_iff.mpr hmem2, rfl⟩
        · exact (List.perm_insertionSort (· ≤ ·) ls).mem_iff.mpr hmem

/-- Witness for `c9_output_indexed`: two occurrences of the canonical term
`Sage, Mr` merge into one entry whose sorted location list contains both. -/
theorem c9_output_indexed_witness :
    (∃ ls, ("Sage, Mr", ls) ∈
        outputIndexedEntries
          (buildIndexed [("Sage, Mr", 3), ("banana", 1), ("Sage, Mr", 3), ("Sage, Mr", 2)])
        ∧ 2 ∈ ls) ∧
    outputIndexedEntries
        (buildIndexed [("Sage, Mr", 3), ("banana", 1), ("Sage, Mr", 3), ("Sage, Mr", 2)])
      = [("banana", [1]), ("Sage, Mr", [2, 3])] :=
  ⟨((c9_output_indexed
      [("Sage, Mr", 3), ("banana", 1), ("Sage, Mr", 3), ("Sage, Mr", 2)]).2.2.2
      "Sage, Mr" 2).mpr (by decide),
   by decide⟩

end Opus
